import Mathlib

/-!
Shallow embedding of the aggregation-and-enrichment pipeline of
scripts/analyze_history.py and scripts/make_playlists.py, together with
proofs of the specified properties.

Conventions:
* A raw streaming-history record is `Event`; an `Option` field with value
  `none` models a key that is absent (or JSON `null`) in the raw record.
* Python `dict`s are modelled as insertion-ordered association lists;
  `setKey` models `d[k] = v` (update in place, append when fresh).
* Python `e.get(k)` is the `Option` field itself; `e.get(k, '')` is
  `Option.getD _ ""`; `e[k]` on a possibly-missing key is modelled by
  returning `Except.error` (a raised `KeyError`) when the field is `none`.
* `sorted(xs, key=f, reverse=True)` is the stable descending insertion
  sort `sortDesc`.
-/

/-- Python truthiness test `not s` for an optional string: true when the
key is absent or the value is the empty string. -/
def falsy : Option String → Bool
  | none => true
  | some s => s == ""

/-- First-match lookup in an association list; models `d[k]` / `d.get(k)`
on a Python dict (whose keys are unique). -/
def lookupKey {β : Type} : List (String × β) → String → Option β
  | [], _ => none
  | (k, v) :: rest, key => if k = key then some v else lookupKey rest key

/-- Key-membership test; models `k in d`. -/
def containsKey {β : Type} (l : List (String × β)) (k : String) : Bool :=
  (lookupKey l k).isSome

/-- Dict assignment `d[k] = v`: overwrite the first (unique) occurrence in
place, append at the end when the key is fresh. -/
def setKey {β : Type} : List (String × β) → String → β → List (String × β)
  | [], k, v => [(k, v)]
  | (k', v') :: rest, k, v =>
    if k' = k then (k, v) :: rest else (k', v') :: setKey rest k v

/-- Python set.add on a list model of a set. -/
def addSet (s : List String) (x : String) : List String :=
  if s.contains x then s else s ++ [x]

/-- Stable descending insert: place `x` before the first element whose key
is not larger, so earlier elements win ties (Python sort stability). -/
def insertDesc {α : Type} (key : α → Int) (x : α) : List α → List α
  | [] => [x]
  | y :: ys => if key y ≤ key x then x :: y :: ys else y :: insertDesc key x ys

/-- Stable descending sort by an integer key; models
`sorted(xs, key=f, reverse=True)` (Timsort is stable, and with
`reverse=True` equal-key elements keep their original order). -/
def sortDesc {α : Type} (key : α → Int) : List α → List α
  | [] => []
  | x :: xs => insertDesc key x (sortDesc key xs)

/-- 1-based rank assignment; models `enumerate(xs, 1)`. -/
def rankFrom {α : Type} : Nat → List α → List (Nat × α)
  | _, [] => []
  | i, x :: xs => (i, x) :: rankFrom (i + 1) xs

/-- Ranking of a stats mapping: stable descending sort by a numeric key,
then 1-based rank assignment (analyze_history.py lines 181-183, 193). -/
def rankRows {α : Type} (key : α → Int) (items : List α) : List (Nat × α) :=
  rankFrom 1 (sortDesc key items)

/-- Sum of a numeric projection over a list (used for play-count totals). -/
def sumBy {α : Type} (f : α → Nat) (l : List α) : Nat :=
  (l.map f).sum

/-- One raw streaming-history entry. Each field is the value of the
corresponding JSON key; `none` models an absent key (or a JSON null,
which the scripts treat identically everywhere they can observe it). -/
structure Event where
  spotify_track_uri : Option String
  master_metadata_track_name : Option String
  master_metadata_album_artist_name : Option String
  master_metadata_album_album_name : Option String
  ms_played : Option Int
deriving DecidableEq

/-- Per-track statistics record of analyze_history.aggregate_tracks. -/
structure TrackStats where
  track_name : String
  artist_name : String
  album_name : String
  play_count : Nat
  total_ms : Int
deriving DecidableEq

/-- Per-artist statistics record of analyze_history.aggregate_artists. -/
structure ArtistStats where
  play_count : Nat
  total_ms : Int
  track_uris : List String
deriving DecidableEq

/-- Body of the qualifying branch of aggregate_tracks (lines 61-66):
defaultdict access creating the entry on first use, metadata overwrite,
counter accumulation. -/
def bumpTrack (uri name artist album : String) (ms : Int) :
    List (String × TrackStats) → List (String × TrackStats)
  | [] => [(uri, ⟨name, artist, album, 1, ms⟩)]
  | (k, t) :: rest =>
    if k = uri then
      (k, ⟨name, artist, album, t.play_count + 1, t.total_ms + ms⟩) :: rest
    else (k, t) :: bumpTrack uri name artist album ms rest

/-- Loop of aggregate_tracks (lines 53-66) with explicit accumulator.
`e['ms_played']` on a record without that key raises, hence `Except`. -/
def aggTracksFrom (min_ms : Int) :
    List Event → List (String × TrackStats) →
    Except String (List (String × TrackStats))
  | [], m => Except.ok m
  | e :: rest, m =>
    if falsy e.spotify_track_uri || falsy e.master_metadata_track_name then
      aggTracksFrom min_ms rest m
    else
      match e.ms_played with
      | none => Except.error "KeyError: ms_played"
      | some ms =>
        if ms < min_ms then aggTracksFrom min_ms rest m
        else
          aggTracksFrom min_ms rest
            (bumpTrack (e.spotify_track_uri.getD "")
              (e.master_metadata_track_name.getD "")
              (e.master_metadata_album_artist_name.getD "")
              (e.master_metadata_album_album_name.getD "") ms m)

/-- analyze_history.aggregate_tracks (default min_ms is 30000). -/
def aggregate_tracks (entries : List Event) (min_ms : Int) :
    Except String (List (String × TrackStats)) :=
  aggTracksFrom min_ms entries []

/-- Body of the qualifying branch of aggregate_artists (lines 87-90). -/
def bumpArtist (artist uri : String) (ms : Int) :
    List (String × ArtistStats) → List (String × ArtistStats)
  | [] => [(artist, ⟨1, ms, [uri]⟩)]
  | (k, a) :: rest =>
    if k = artist then
      (k, ⟨a.play_count + 1, a.total_ms + ms, addSet a.track_uris uri⟩) :: rest
    else (k, a) :: bumpArtist artist uri ms rest

/-- Loop of aggregate_artists (lines 79-90) with explicit accumulator. -/
def aggArtistsFrom (min_ms : Int) :
    List Event → List (String × ArtistStats) →
    Except String (List (String × ArtistStats))
  | [], m => Except.ok m
  | e :: rest, m =>
    if falsy e.master_metadata_album_artist_name || falsy e.spotify_track_uri then
      aggArtistsFrom min_ms rest m
    else
      match e.ms_played with
      | none => Except.error "KeyError: ms_played"
      | some ms =>
        if ms < min_ms then aggArtistsFrom min_ms rest m
        else
          aggArtistsFrom min_ms rest
            (bumpArtist (e.master_metadata_album_artist_name.getD "")
              (e.spotify_track_uri.getD "") ms m)

/-- analyze_history.aggregate_artists (default min_ms is 30000). -/
def aggregate_artists (entries : List Event) (min_ms : Int) :
    Except String (List (String × ArtistStats)) :=
  aggArtistsFrom min_ms entries []

/-- Millisecond threshold test shared by both aggregators: false when the
ms_played key is absent (though the code raises there instead) or the
value is below the threshold. -/
def msOk (min_ms : Int) (e : Event) : Bool :=
  match e.ms_played with
  | none => false
  | some ms => !decide (ms < min_ms)

/-- An event survives the filters of aggregate_tracks. -/
def trackQual (min_ms : Int) (e : Event) : Bool :=
  !(falsy e.spotify_track_uri || falsy e.master_metadata_track_name)
    && msOk min_ms e

/-- An event survives the filters of aggregate_artists. -/
def artistQual (min_ms : Int) (e : Event) : Bool :=
  !(falsy e.master_metadata_album_artist_name || falsy e.spotify_track_uri)
    && msOk min_ms e

/-- Persisted genre cache: artist name, then up to five genre tags. -/
abbrev Cache := List (String × List String)

/-- One tag of a MusicBrainz search hit; `count` is `t.get('count', 0)`
(the relevance count, absent for some tags). -/
structure MBTag where
  name : String
  count : Option Int
deriving DecidableEq

/-- One matched entity of a MusicBrainz artist search;
`tagList` is `artists[0].get('tag-list', [])`. -/
structure MBArtist where
  tagList : List MBTag
deriving DecidableEq

/-- Outcome of one `musicbrainzngs.search_artists` call: the returned
`artist-list` on success, or a raised exception. -/
inductive FetchOutcome where
  | ok (artistList : List MBArtist)
  | err
deriving DecidableEq

/-- Relevance key of a tag: `int(t.get('count', 0))`. -/
def tagKey (t : MBTag) : Int :=
  t.count.getD 0

/-- Entry stored on a successful lookup with a matched artist
(lines 140-141): names of the first five tags after a stable descending
sort by relevance count. -/
def top5Tags (tags : List MBTag) : List String :=
  ((sortDesc tagKey tags).take 5).map MBTag.name

/-- Result of one fetch round (or of the whole retry loop): the cache so
far, the names whose lookup failed, and the trace of issued lookups as
(attempt number, artist name) pairs. -/
structure RoundOut where
  cache : Cache
  failed : List String
  lookups : List (Nat × String)
deriving DecidableEq

/-- Inner loop of fetch_artist_genres (lines 134-153): one lookup per
pending name, caching successes (top-5 tags, or an empty list when the
artist list is empty) and collecting failures. -/
def runRound (fetch : Nat → String → FetchOutcome) (attempt : Nat) :
    List String → Cache → RoundOut
  | [], c => ⟨c, [], []⟩
  | n :: rest, c =>
    match fetch attempt n with
    | FetchOutcome.ok [] =>
      let r := runRound fetch attempt rest (setKey c n [])
      ⟨r.cache, r.failed, (attempt, n) :: r.lookups⟩
    | FetchOutcome.ok (a :: _) =>
      let r := runRound fetch attempt rest (setKey c n (top5Tags a.tagList))
      ⟨r.cache, r.failed, (attempt, n) :: r.lookups⟩
    | FetchOutcome.err =>
      let r := runRound fetch attempt rest c
      ⟨r.cache, n :: r.failed, (attempt, n) :: r.lookups⟩

/-- Retry loop of fetch_artist_genres (lines 127-158): up to `rounds`
rounds, stopping early when nothing is pending; each round retries
exactly the previous round's failures. -/
def runRounds (fetch : Nat → String → FetchOutcome) :
    Nat → Nat → List String → Cache → RoundOut
  | 0, _, tf, c => ⟨c, tf, []⟩
  | rounds + 1, attempt, tf, c =>
    if tf.isEmpty then ⟨c, tf, []⟩
    else
      let r := runRound fetch attempt tf c
      let r2 := runRounds fetch rounds (attempt + 1) r.failed r.cache
      ⟨r2.cache, r2.failed, r.lookups ++ r2.lookups⟩

/-- Full observable outcome of one fetch_artist_genres invocation. -/
structure ResolverOut where
  result : List (String × List String)
  cache : Cache
  lookups : List (Nat × String)
  saves : List Cache
deriving DecidableEq

/-- analyze_history.fetch_artist_genres (lines 110-166), parametrised by
the tag source `fetch` (attempt number and artist name to outcome) and by
the initially loaded cache `cache0`. The trace fields record every
issued lookup and every save_genre_cache call. -/
def fetch_artist_genres (fetch : Nat → String → FetchOutcome)
    (artist_names : List String) (cache0 : Cache) (max_retries : Nat) :
    ResolverOut :=
  let names := artist_names
  let to_fetch := names.filter (fun n => !containsKey cache0 n)
  let r := runRounds fetch max_retries 1 to_fetch cache0
  let cache2 := r.failed.foldl (fun c n => setKey c n []) r.cache
  ⟨names.map (fun n => (n, (lookupKey cache2 n).getD [])),
    cache2, r.lookups, [cache2]⟩

/-- analyze_history.load_genre_cache (lines 98-102). The persisted file
is abstracted as an optional key-value document (the spec scopes out the
backing file format); `none` is an absent cache file. -/
def load_genre_cache (store : Option Cache) : Cache :=
  match store with
  | some c => c
  | none => []

/-- analyze_history.save_genre_cache (lines 105-107): overwrites the
whole persisted document with the given mapping. -/
def save_genre_cache (cache : Cache) : Option Cache :=
  some cache

/-- Substring test on character lists; models Python `pat in s`. -/
def isSubstr (pat : List Char) : List Char → Bool
  | [] => pat.isEmpty
  | c :: rest => pat.isPrefixOf (c :: rest) || isSubstr pat rest

/-- The genre marker searched for in make_playlists.py line 89. -/
def dnbPat : List Char :=
  "drum and bass".toList

/-- Python `'drum and bass' in g.lower()`; lowercasing is applied per
character, which is what `str.lower` does on these tag strings. -/
def hasDnbTag (g : String) : Bool :=
  isSubstr dnbPat (g.toList.map Char.toLower)

/-- Hard-coded denylist of make_playlists.py line 86. -/
def DNB_EXCLUDE : List String :=
  ["Lane 8", "The Kite String Tangle", "BCee feat. Rocky Nti", "BCee"]

/-- Per-track statistics record of make_playlists.aggregate_tracks
(no album field in this script). -/
structure MPTrackStats where
  track_name : String
  artist_name : String
  play_count : Nat
  total_ms : Int
deriving DecidableEq

/-- Qualifying-branch body of make_playlists.aggregate_tracks
(lines 51-55). -/
def mpBumpTrack (uri name artist : String) (ms : Int) :
    List (String × MPTrackStats) → List (String × MPTrackStats)
  | [] => [(uri, ⟨name, artist, 1, ms⟩)]
  | (k, t) :: rest =>
    if k = uri then
      (k, ⟨name, artist, t.play_count + 1, t.total_ms + ms⟩) :: rest
    else (k, t) :: mpBumpTrack uri name artist ms rest

/-- Loop of make_playlists.aggregate_tracks (lines 46-55); the combined
skip test short-circuits, so `e['ms_played']` is only read (and can only
raise) after the uri and name checks pass. -/
def mpAggTracksFrom (min_ms : Int) :
    List Event → List (String × MPTrackStats) →
    Except String (List (String × MPTrackStats))
  | [], m => Except.ok m
  | e :: rest, m =>
    if falsy e.spotify_track_uri || falsy e.master_metadata_track_name then
      mpAggTracksFrom min_ms rest m
    else
      match e.ms_played with
      | none => Except.error "KeyError: ms_played"
      | some ms =>
        if ms < min_ms then mpAggTracksFrom min_ms rest m
        else
          mpAggTracksFrom min_ms rest
            (mpBumpTrack (e.spotify_track_uri.getD "")
              (e.master_metadata_track_name.getD "")
              (e.master_metadata_album_artist_name.getD "") ms m)

/-- make_playlists.aggregate_tracks (default min_ms is 30000). -/
def mp_aggregate_tracks (entries : List Event) (min_ms : Int) :
    Except String (List (String × MPTrackStats)) :=
  mpAggTracksFrom min_ms entries []

/-- DnB artist selection of make_playlists.main (lines 86-91): cache keys
with a matching genre tag, minus the hard-coded denylist. -/
def dnb_artists (genre_cache : Cache) : List String :=
  genre_cache.foldl
    (fun s p =>
      if p.2.any hasDnbTag && !(DNB_EXCLUDE.contains p.1) then addSet s p.1
      else s)
    []

/-- Top-100 DnB track selection of make_playlists.main (lines 94-96). -/
def top_100_dnb (genre_cache : Cache)
    (all_tracks : List (String × MPTrackStats)) :
    List (String × MPTrackStats) :=
  let dnb := dnb_artists genre_cache
  let dnbTracks := all_tracks.filter (fun p => dnb.contains p.2.artist_name)
  (sortDesc (fun p => (p.2.play_count : Int)) dnbTracks).take 100

example : aggregate_tracks [⟨some "a", some "X", some "Art1", none, some 31000⟩,
    ⟨some "a", some "X", some "Art1", none, some 29000⟩,
    ⟨some "b", some "Y", some "Art1", none, some 40000⟩] 30000
    = Except.ok [("a", ⟨"X", "Art1", "", 1, 31000⟩), ("b", ⟨"Y", "Art1", "", 1, 40000⟩)] := by
  rfl

example : aggregate_artists [⟨some "a", some "X", some "Art1", none, some 31000⟩,
    ⟨some "a", some "X", some "Art1", none, some 29000⟩,
    ⟨some "b", some "Y", some "Art1", none, some 40000⟩] 30000
    = Except.ok [("Art1", ⟨2, 71000, ["a", "b"]⟩)] := by
  rfl

/-! ### Play-count accounting for the aggregators -/

theorem sumBy_bumpTrack (uri name artist album : String) (ms : Int)
    (m : List (String × TrackStats)) :
    sumBy (fun p => p.2.play_count) (bumpTrack uri name artist album ms m)
      = sumBy (fun p => p.2.play_count) m + 1 := by
  induction m with
  | nil => simp [bumpTrack, sumBy]
  | cons hd tl ih =>
    obtain ⟨k, t⟩ := hd
    by_cases h : k = uri
    · simp [bumpTrack, h, sumBy]
      omega
    · simp [bumpTrack, h, sumBy] at ih ⊢
      omega

theorem sumBy_bumpArtist (artist uri : String) (ms : Int)
    (m : List (String × ArtistStats)) :
    sumBy (fun p => p.2.play_count) (bumpArtist artist uri ms m)
      = sumBy (fun p => p.2.play_count) m + 1 := by
  induction m with
  | nil => simp [bumpArtist, sumBy]
  | cons hd tl ih =>
    obtain ⟨k, a⟩ := hd
    by_cases h : k = artist
    · simp [bumpArtist, h, sumBy]
      omega
    · simp [bumpArtist, h, sumBy] at ih ⊢
      omega

theorem aggTracksFrom_sum (min_ms : Int) (entries : List Event) :
    ∀ (m tm : List (String × TrackStats)),
      aggTracksFrom min_ms entries m = Except.ok tm →
      sumBy (fun p => p.2.play_count) tm
        = sumBy (fun p => p.2.play_count) m
            + List.countP (trackQual min_ms) entries := by
  induction entries with
  | nil =>
    intro m tm h
    simp [aggTracksFrom] at h
    subst h
    simp
  | cons e rest ih =>
    intro m tm h
    by_cases hg : (falsy e.spotify_track_uri || falsy e.master_metadata_track_name) = true
    · simp only [aggTracksFrom, hg, if_true] at h
      have := ih m tm h
      simp [List.countP_cons, trackQual, hg]
      omega
    · rw [Bool.not_eq_true] at hg
      cases hms : e.ms_played with
      | none => simp [aggTracksFrom, hg, hms] at h
      | some ms =>
        by_cases hlt : ms < min_ms
        · simp only [aggTracksFrom, hg, Bool.false_eq_true, if_false, hms, hlt, if_true] at h
          have := ih m tm h
          simp [List.countP_cons, trackQual, msOk, hg, hms, hlt]
          omega
        · simp only [aggTracksFrom, hg, Bool.false_eq_true, if_false, hms, hlt] at h
          have := ih _ tm h
          rw [sumBy_bumpTrack] at this
          simp [List.countP_cons, trackQual, msOk, hg, hms, hlt]
          omega

theorem aggArtistsFrom_sum (min_ms : Int) (entries : List Event) :
    ∀ (m am : List (String × ArtistStats)),
      aggArtistsFrom min_ms entries m = Except.ok am →
      sumBy (fun p => p.2.play_count) am
        = sumBy (fun p => p.2.play_count) m
            + List.countP (artistQual min_ms) entries := by
  induction entries with
  | nil =>
    intro m am h
    simp [aggArtistsFrom] at h
    subst h
    simp
  | cons e rest ih =>
    intro m am h
    by_cases hg : (falsy e.master_metadata_album_artist_name || falsy e.spotify_track_uri) = true
    · simp only [aggArtistsFrom, hg, if_true] at h
      have := ih m am h
      simp [List.countP_cons, artistQual, hg]
      omega
    · rw [Bool.not_eq_true] at hg
      cases hms : e.ms_played with
      | none => simp [aggArtistsFrom, hg, hms] at h
      | some ms =>
        by_cases hlt : ms < min_ms
        · simp only [aggArtistsFrom, hg, Bool.false_eq_true, if_false, hms, hlt, if_true] at h
          have := ih m am h
          simp [List.countP_cons, artistQual, msOk, hg, hms, hlt]
          omega
        · simp only [aggArtistsFrom, hg, Bool.false_eq_true, if_false, hms, hlt] at h
          have := ih _ am h
          rw [sumBy_bumpArtist] at this
          simp [List.countP_cons, artistQual, msOk, hg, hms, hlt]
          omega

theorem trackQual_eq_artistQual (min_ms : Int) (e : Event)
    (h3 : trackQual min_ms e = true → falsy e.master_metadata_album_artist_name = false)
    (h4 : artistQual min_ms e = true → falsy e.master_metadata_track_name = false) :
    trackQual min_ms e = artistQual min_ms e := by
  cases hu : falsy e.spotify_track_uri <;>
    cases hn : falsy e.master_metadata_track_name <;>
      cases ha : falsy e.master_metadata_album_artist_name <;>
        cases hm : msOk min_ms e <;>
          simp [trackQual, artistQual, hu, hn, ha, hm] at h3 h4 ⊢

/-- C1 (amended): the play-count totals of aggregate_tracks and
aggregate_artists agree whenever every event that qualifies for the
track aggregation has a non-empty artist name AND, conversely, every
event that qualifies for the artist aggregation (non-empty artist name
and track_uri, ms_played at or above the threshold) has a non-empty
track name. -/
theorem sum_playCounts_eq (entries : List Event) (min_ms : Int)
    (tm : List (String × TrackStats)) (am : List (String × ArtistStats))
    (h1 : aggregate_tracks entries min_ms = Except.ok tm)
    (h2 : aggregate_artists entries min_ms = Except.ok am)
    (h3 : ∀ e ∈ entries, trackQual min_ms e = true →
      falsy e.master_metadata_album_artist_name = false)
    (h4 : ∀ e ∈ entries, artistQual min_ms e = true →
      falsy e.master_metadata_track_name = false) :
    sumBy (fun p => p.2.play_count) tm = sumBy (fun p => p.2.play_count) am := by
  have ht := aggTracksFrom_sum min_ms entries [] tm h1
  have ha := aggArtistsFrom_sum min_ms entries [] am h2
  have hc : List.countP (trackQual min_ms) entries
      = List.countP (artistQual min_ms) entries := by
    apply List.countP_congr
    intro e he
    have := trackQual_eq_artistQual min_ms e (h3 e he) (h4 e he)
    simp [this]
  rw [hc] at ht
  rw [show sumBy (fun p => p.2.play_count) ([] : List (String × TrackStats)) = 0 from rfl] at ht
  rw [show sumBy (fun p => p.2.play_count) ([] : List (String × ArtistStats)) = 0 from rfl] at ha
  omega

/-- C1 counterexample: one event with a non-empty artist but a missing
track name counts for the artist aggregation and not for the track
aggregation, although every track-qualifying event (there are none) has
a non-empty artist name; the two play-count totals differ. -/
theorem sum_playCounts_cex :
    ([⟨some "u", none, some "A", none, some 40000⟩] : List Event).all
        (fun e => !trackQual 30000 e || !falsy e.master_metadata_album_artist_name) = true
      ∧ aggregate_tracks [⟨some "u", none, some "A", none, some 40000⟩] 30000
          = Except.ok []
      ∧ aggregate_artists [⟨some "u", none, some "A", none, some 40000⟩] 30000
          = Except.ok [("A", ⟨1, 40000, ["u"]⟩)]
      ∧ sumBy (fun p => p.2.play_count) ([] : List (String × TrackStats))
          ≠ sumBy (fun p => p.2.play_count) [("A", (⟨1, 40000, ["u"]⟩ : ArtistStats))] := by
  refine ⟨by decide, rfl, rfl, by decide⟩

/-- C1 witness: the worked example of the spec (two plays of track a, one
below threshold, one play of track b, all by Art1) satisfies every
hypothesis of the amended theorem, and both totals are 2. -/
theorem sum_playCounts_eq_witness :
    sumBy (fun p => p.2.play_count)
        [("a", (⟨"X", "Art1", "", 1, 31000⟩ : TrackStats)),
          ("b", (⟨"Y", "Art1", "", 1, 40000⟩ : TrackStats))]
      = sumBy (fun p => p.2.play_count)
          [("Art1", (⟨2, 71000, ["a", "b"]⟩ : ArtistStats))] :=
  sum_playCounts_eq
    [⟨some "a", some "X", some "Art1", none, some 31000⟩,
      ⟨some "a", some "X", some "Art1", none, some 29000⟩,
      ⟨some "b", some "Y", some "Art1", none, some 40000⟩]
    30000 _ _ rfl rfl (by decide) (by decide)

/-! ### Totality and silent exclusion of the aggregators -/

theorem aggTracksFrom_skip (min_ms : Int) :
    ∀ entries : List Event,
      (∀ e ∈ entries,
        (falsy e.spotify_track_uri || falsy e.master_metadata_track_name) = true
          ∨ e.ms_played.isSome = true) →
      ∀ m, ∃ tm, aggTracksFrom min_ms entries m = Except.ok tm
        ∧ aggTracksFrom min_ms (entries.filter (trackQual min_ms)) m
            = Except.ok tm := by
  intro entries
  induction entries with
  | nil => exact fun _ m => ⟨m, rfl, rfl⟩
  | cons e rest ih =>
    intro h m
    have he := h e (List.mem_cons_self e rest)
    have hr := fun x hx => h x (List.mem_cons_of_mem e hx)
    by_cases hg : (falsy e.spotify_track_uri || falsy e.master_metadata_track_name) = true
    · have hq : trackQual min_ms e = false := by simp [trackQual, hg]
      obtain ⟨tm, hA, hB⟩ := ih hr m
      refine ⟨tm, ?_, ?_⟩
      · simp only [aggTracksFrom, hg, if_true]
        exact hA
      · simp only [List.filter_cons, hq, Bool.false_eq_true, if_false]
        exact hB
    · rw [Bool.not_eq_true] at hg
      rcases he with he | he
      · rw [he] at hg
        cases hg
      · obtain ⟨ms, hms⟩ := Option.isSome_iff_exists.mp he
        by_cases hlt : ms < min_ms
        · have hq : trackQual min_ms e = false := by
            simp [trackQual, msOk, hg, hms, hlt]
          obtain ⟨tm, hA, hB⟩ := ih hr m
          refine ⟨tm, ?_, ?_⟩
          · simp only [aggTracksFrom, hg, Bool.false_eq_true, if_false, hms,
              hlt, if_true]
            exact hA
          · simp only [List.filter_cons, hq, Bool.false_eq_true, if_false]
            exact hB
        · have hq : trackQual min_ms e = true := by
            simp [trackQual, msOk, hg, hms, hlt]
          obtain ⟨tm, hA, hB⟩ := ih hr
            (bumpTrack (e.spotify_track_uri.getD "")
              (e.master_metadata_track_name.getD "")
              (e.master_metadata_album_artist_name.getD "")
              (e.master_metadata_album_album_name.getD "") ms m)
          refine ⟨tm, ?_, ?_⟩
          · simp only [aggTracksFrom, hg, Bool.false_eq_true, if_false, hms, hlt]
            exact hA
          · simp only [List.filter_cons, hq, if_true]
            simp only [aggTracksFrom, hg, Bool.false_eq_true, if_false, hms, hlt]
            exact hB

theorem aggArtistsFrom_skip (min_ms : Int) :
    ∀ entries : List Event,
      (∀ e ∈ entries,
        (falsy e.master_metadata_album_artist_name || falsy e.spotify_track_uri) = true
          ∨ e.ms_played.isSome = true) →
      ∀ m, ∃ am, aggArtistsFrom min_ms entries m = Except.ok am
        ∧ aggArtistsFrom min_ms (entries.filter (artistQual min_ms)) m
            = Except.ok am := by
  intro entries
  induction entries with
  | nil => exact fun _ m => ⟨m, rfl, rfl⟩
  | cons e rest ih =>
    intro h m
    have he := h e (List.mem_cons_self e rest)
    have hr := fun x hx => h x (List.mem_cons_of_mem e hx)
    by_cases hg : (falsy e.master_metadata_album_artist_name || falsy e.spotify_track_uri) = true
    · have hq : artistQual min_ms e = false := by simp [artistQual, hg]
      obtain ⟨am, hA, hB⟩ := ih hr m
      refine ⟨am, ?_, ?_⟩
      · simp only [aggArtistsFrom, hg, if_true]
        exact hA
      · simp only [List.filter_cons, hq, Bool.false_eq_true, if_false]
        exact hB
    · rw [Bool.not_eq_true] at hg
      rcases he with he | he
      · rw [he] at hg
        cases hg
      · obtain ⟨ms, hms⟩ := Option.isSome_iff_exists.mp he
        by_cases hlt : ms < min_ms
        · have hq : artistQual min_ms e = false := by
            simp [artistQual, msOk, hg, hms, hlt]
          obtain ⟨am, hA, hB⟩ := ih hr m
          refine ⟨am, ?_, ?_⟩
          · simp only [aggArtistsFrom, hg, Bool.false_eq_true, if_false, hms,
              hlt, if_true]
            exact hA
          · simp only [List.filter_cons, hq, Bool.false_eq_true, if_false]
            exact hB
        · have hq : artistQual min_ms e = true := by
            simp [artistQual, msOk, hg, hms, hlt]
          obtain ⟨am, hA, hB⟩ := ih hr
            (bumpArtist (e.master_metadata_album_artist_name.getD "")
              (e.spotify_track_uri.getD "") ms m)
          refine ⟨am, ?_, ?_⟩
          · simp only [aggArtistsFrom, hg, Bool.false_eq_true, if_false, hms, hlt]
            exact hA
          · simp only [List.filter_cons, hq, if_true]
            simp only [aggArtistsFrom, hg, Bool.false_eq_true, if_false, hms, hlt]
            exact hB

/-- C2 (amended): aggregation silently excludes events that fail the
presence checks or whose ms_played is present but below the threshold,
and is total on every input in which each event either fails the
presence checks of the respective aggregator or carries an ms_played
value; aggregating such an input equals aggregating only its qualifying
events. (An event that passes the presence checks but lacks ms_played
instead raises a KeyError, so the functions are not total on all
malformed inputs; see the counterexample.) -/
theorem aggregate_silent_exclusion (entries : List Event) (min_ms : Int)
    (h1 : ∀ e ∈ entries,
      (falsy e.spotify_track_uri || falsy e.master_metadata_track_name) = true
        ∨ e.ms_played.isSome = true)
    (h2 : ∀ e ∈ entries,
      (falsy e.master_metadata_album_artist_name || falsy e.spotify_track_uri) = true
        ∨ e.ms_played.isSome = true) :
    (∃ tm, aggregate_tracks entries min_ms = Except.ok tm
      ∧ aggregate_tracks (entries.filter (trackQual min_ms)) min_ms
          = Except.ok tm)
      ∧ (∃ am, aggregate_artists entries min_ms = Except.ok am
        ∧ aggregate_artists (entries.filter (artistQual min_ms)) min_ms
            = Except.ok am) :=
  ⟨aggTracksFrom_skip min_ms entries h1 [],
    aggArtistsFrom_skip min_ms entries h2 []⟩

/-- C2 counterexample: an event with a present track_uri and track_name
(resp. artist name) but no ms_played key makes each aggregator raise a
KeyError instead of silently excluding the event. -/
theorem aggregate_raises_cex :
    aggregate_tracks [⟨some "u", some "X", none, none, none⟩] 30000
        = Except.error "KeyError: ms_played"
      ∧ aggregate_artists [⟨some "u", some "X", some "A", none, none⟩] 30000
          = Except.error "KeyError: ms_played" :=
  ⟨rfl, rfl⟩

/-- C2 witness: one qualifying event plus one event with a missing
track_uri and missing ms_played; both aggregators succeed and agree with
aggregation of the qualifying events alone. -/
theorem aggregate_silent_exclusion_witness :
    (∃ tm, aggregate_tracks
        [⟨some "a", some "X", some "Art1", none, some 31000⟩,
          ⟨none, some "X", some "Art1", none, none⟩] 30000 = Except.ok tm
      ∧ aggregate_tracks
          ([⟨some "a", some "X", some "Art1", none, some 31000⟩,
            ⟨none, some "X", some "Art1", none, none⟩].filter (trackQual 30000))
          30000 = Except.ok tm)
      ∧ (∃ am, aggregate_artists
          [⟨some "a", some "X", some "Art1", none, some 31000⟩,
            ⟨none, some "X", some "Art1", none, none⟩] 30000 = Except.ok am
        ∧ aggregate_artists
            ([⟨some "a", some "X", some "Art1", none, some 31000⟩,
              ⟨none, some "X", some "Art1", none, none⟩].filter (artistQual 30000))
            30000 = Except.ok am) :=
  aggregate_silent_exclusion
    [⟨some "a", some "X", some "Art1", none, some 31000⟩,
      ⟨none, some "X", some "Art1", none, none⟩]
    30000 (by decide) (by decide)

/-! ### Association-list and resolver lemmas -/

theorem lookupKey_setKey_self {β : Type} (l : List (String × β)) (k : String)
    (v : β) : lookupKey (setKey l k v) k = some v := by
  induction l with
  | nil => simp [setKey, lookupKey]
  | cons hd rest ih =>
    obtain ⟨k', v'⟩ := hd
    by_cases h : k' = k
    · simp [setKey, h, lookupKey]
    · simp [setKey, h, lookupKey, ih]

theorem lookupKey_setKey_ne {β : Type} (l : List (String × β)) (k m : String)
    (v : β) (h : k ≠ m) : lookupKey (setKey l m v) k = lookupKey l k := by
  induction l with
  | nil => simp [setKey, lookupKey, Ne.symm h]
  | cons hd rest ih =>
    obtain ⟨k', v'⟩ := hd
    by_cases h' : k' = m
    · subst h'
      simp [setKey, lookupKey, Ne.symm h]
    · by_cases h'' : k' = k
      · simp [setKey, h', lookupKey, h'', h]
      · simp [setKey, h', lookupKey, h'', ih]

theorem runRound_failed_sub (fetch : Nat → String → FetchOutcome)
    (attempt : Nat) (n : String) :
    ∀ (tf : List String) (c : Cache),
      n ∈ (runRound fetch attempt tf c).failed → n ∈ tf := by
  intro tf
  induction tf with
  | nil => intro c h; simp [runRound] at h
  | cons m rest ih =>
    intro c h
    cases hf : fetch attempt m with
    | ok artists =>
      cases artists with
      | nil =>
        simp only [runRound, hf] at h
        exact List.mem_cons_of_mem m (ih _ h)
      | cons a as =>
        simp only [runRound, hf] at h
        exact List.mem_cons_of_mem m (ih _ h)
    | err =>
      simp only [runRound, hf] at h
      rcases List.mem_cons.mp h with h | h
      · exact h ▸ List.mem_cons_self m rest
      · exact List.mem_cons_of_mem m (ih _ h)

theorem runRound_lookups_eq (fetch : Nat → String → FetchOutcome)
    (attempt : Nat) :
    ∀ (tf : List String) (c : Cache),
      (runRound fetch attempt tf c).lookups
        = tf.map (fun n => (attempt, n)) := by
  intro tf
  induction tf with
  | nil => intro c; simp [runRound]
  | cons m rest ih =>
    intro c
    cases hf : fetch attempt m with
    | ok artists =>
      cases artists with
      | nil => simp [runRound, hf, ih]
      | cons a as => simp [runRound, hf, ih]
    | err => simp [runRound, hf, ih]

theorem runRound_mem_failed (fetch : Nat → String → FetchOutcome)
    (attempt : Nat) (n : String)
    (hf : fetch attempt n = FetchOutcome.err) :
    ∀ (tf : List String) (c : Cache),
      n ∈ tf → n ∈ (runRound fetch attempt tf c).failed := by
  intro tf
  induction tf with
  | nil => intro c h; cases h
  | cons m rest ih =>
    intro c h
    by_cases hnm : n = m
    · subst hnm
      simp only [runRound, hf]
      exact List.mem_cons_self n _
    · have hr : n ∈ rest := by
        rcases List.mem_cons.mp h with h | h
        · exact absurd h hnm
        · exact h
      cases hf2 : fetch attempt m with
      | ok artists =>
        cases artists with
        | nil => simp only [runRound, hf2]; exact ih _ hr
        | cons a as => simp only [runRound, hf2]; exact ih _ hr
      | err =>
        simp only [runRound, hf2]
        exact List.mem_cons_of_mem m (ih _ hr)

theorem runRound_cache_preserve (fetch : Nat → String → FetchOutcome)
    (attempt : Nat) (k : String) :
    ∀ (tf : List String) (c : Cache), (∀ m ∈ tf, m ≠ k) →
      lookupKey (runRound fetch attempt tf c).cache k = lookupKey c k := by
  intro tf
  induction tf with
  | nil => intro c _; simp [runRound]
  | cons m rest ih =>
    intro c h
    have hmk : k ≠ m := fun hh => h m (List.mem_cons_self m rest) hh.symm
    have hrest : ∀ x ∈ rest, x ≠ k := fun x hx => h x (List.mem_cons_of_mem m hx)
    cases hf : fetch attempt m with
    | ok artists =>
      cases artists with
      | nil =>
        simp only [runRound, hf]
        rw [ih _ hrest, lookupKey_setKey_ne _ _ _ _ hmk]
      | cons a as =>
        simp only [runRound, hf]
        rw [ih _ hrest, lookupKey_setKey_ne _ _ _ _ hmk]
    | err =>
      simp only [runRound, hf]
      exact ih _ hrest

theorem runRounds_failed_sub (fetch : Nat → String → FetchOutcome) (n : String) :
    ∀ (rounds attempt : Nat) (tf : List String) (c : Cache),
      n ∈ (runRounds fetch rounds attempt tf c).failed → n ∈ tf := by
  intro rounds
  induction rounds with
  | zero => intro attempt tf c h; simpa [runRounds] using h
  | succ r ih =>
    intro attempt tf c h
    by_cases htf : tf.isEmpty = true
    · simp only [runRounds, htf, if_true] at h
      exact h
    · simp only [runRounds, htf, Bool.false_eq_true, if_false] at h
      exact runRound_failed_sub fetch attempt n _ _ (ih _ _ _ h)

theorem runRounds_lookups_name (fetch : Nat → String → FetchOutcome)
    (p : Nat × String) :
    ∀ (rounds attempt : Nat) (tf : List String) (c : Cache),
      p ∈ (runRounds fetch rounds attempt tf c).lookups → p.2 ∈ tf := by
  intro rounds
  induction rounds with
  | zero => intro attempt tf c h; simp [runRounds] at h
  | succ r ih =>
    intro attempt tf c h
    by_cases htf : tf.isEmpty = true
    · simp only [runRounds, htf, if_true] at h
      simp at h
    · simp only [runRounds, htf, Bool.false_eq_true, if_false] at h
      rcases List.mem_append.mp h with h | h
      · rw [runRound_lookups_eq] at h
        rcases List.mem_map.mp h with ⟨x, hx, he⟩
        rw [← he]
        exact hx
      · exact runRound_failed_sub fetch attempt p.2 _ _ (ih _ _ _ h)

theorem runRounds_mem_failed (fetch : Nat → String → FetchOutcome) (n : String) :
    ∀ (rounds attempt : Nat) (tf : List String) (c : Cache), n ∈ tf →
      (∀ j, attempt ≤ j → j < attempt + rounds → fetch j n = FetchOutcome.err) →
      n ∈ (runRounds fetch rounds attempt tf c).failed := by
  intro rounds
  induction rounds with
  | zero => intro attempt tf c h _; simpa [runRounds] using h
  | succ r ih =>
    intro attempt tf c h herr
    have htf : tf.isEmpty = false := by
      cases tf with
      | nil => cases h
      | cons a as => rfl
    simp only [runRounds, htf, Bool.false_eq_true, if_false]
    have h1 : fetch attempt n = FetchOutcome.err :=
      herr attempt (Nat.le_refl attempt) (by omega)
    refine ih (attempt + 1) _ _ (runRound_mem_failed fetch attempt n h1 tf c h) ?_
    intro j hj1 hj2
    exact herr j (by omega) (by omega)

theorem runRounds_cache_preserve (fetch : Nat → String → FetchOutcome)
    (k : String) :
    ∀ (rounds attempt : Nat) (tf : List String) (c : Cache),
      (∀ m ∈ tf, m ≠ k) →
      lookupKey (runRounds fetch rounds attempt tf c).cache k = lookupKey c k := by
  intro rounds
  induction rounds with
  | zero => intro attempt tf c _; simp [runRounds]
  | succ r ih =>
    intro attempt tf c h
    by_cases htf : tf.isEmpty = true
    · simp only [runRounds, htf, if_true]
    · simp only [runRounds, htf, Bool.false_eq_true, if_false]
      have hsub : ∀ m ∈ (runRound fetch attempt tf c).failed, m ≠ k :=
        fun m hm => h m (runRound_failed_sub fetch attempt m tf c hm)
      rw [ih _ _ _ hsub, runRound_cache_preserve fetch attempt k tf c h]

theorem lookupKey_foldl_setKey_keep (k : String) :
    ∀ (l : List String) (c : Cache), lookupKey c k = some [] →
      lookupKey (l.foldl (fun c n => setKey c n []) c) k = some [] := by
  intro l
  induction l with
  | nil => intro c h; exact h
  | cons m rest ih =>
    intro c h
    by_cases hmk : k = m
    · subst hmk
      exact ih _ (lookupKey_setKey_self c k [])
    · exact ih _ (by rw [lookupKey_setKey_ne _ _ _ _ hmk]; exact h)

theorem lookupKey_foldl_setKey_mem (k : String) :
    ∀ (l : List String) (c : Cache), k ∈ l →
      lookupKey (l.foldl (fun c n => setKey c n []) c) k = some [] := by
  intro l
  induction l with
  | nil => intro c h; cases h
  | cons m rest ih =>
    intro c h
    by_cases hmk : k = m
    · subst hmk
      exact lookupKey_foldl_setKey_keep k rest _ (lookupKey_setKey_self c k [])
    · have hr : k ∈ rest := by
        rcases List.mem_cons.mp h with h | h
        · exact absurd h hmk
        · exact h
      exact ih _ hr

theorem lookupKey_foldl_setKey_ne (k : String) :
    ∀ (l : List String) (c : Cache), (∀ m ∈ l, m ≠ k) →
      lookupKey (l.foldl (fun c n => setKey c n []) c) k = lookupKey c k := by
  intro l
  induction l with
  | nil => intro c _; rfl
  | cons m rest ih =>
    intro c h
    have hmk : k ≠ m := fun hh => h m (List.mem_cons_self m rest) hh.symm
    simp only [List.foldl_cons]
    rw [ih _ (fun x hx => h x (List.mem_cons_of_mem m hx)),
      lookupKey_setKey_ne _ _ _ _ hmk]

theorem lookupKey_map_pairs (g : String → List String) (n : String) :
    ∀ names : List String, n ∈ names →
      lookupKey (names.map (fun m => (m, g m))) n = some (g n) := by
  intro names
  induction names with
  | nil => intro h; cases h
  | cons m rest ih =>
    intro h
    by_cases hmn : m = n
    · subst hmn
      simp [lookupKey]
    · have hr : n ∈ rest := by
        rcases List.mem_cons.mp h with h | h
        · exact absurd h.symm hmn
        · exact h
      simp only [List.map_cons, lookupKey, hmn, if_false]
      exact ih hr

/-- C3: when every lookup for a pending name fails in all max_retries
rounds, the resolver records the name in the saved cache as a present
key with an empty-list value and returns an empty list for it in the
result mapping. -/
theorem genre_giveup_cached (fetch : Nat → String → FetchOutcome)
    (names : List String) (cache0 : Cache) (max_retries : Nat) (n : String)
    (h1 : n ∈ names) (h2 : containsKey cache0 n = false)
    (h3 : ∀ j, 1 ≤ j → j ≤ max_retries → fetch j n = FetchOutcome.err) :
    lookupKey (fetch_artist_genres fetch names cache0 max_retries).cache n
        = some []
      ∧ lookupKey (fetch_artist_genres fetch names cache0 max_retries).result n
          = some [] := by
  have hto : n ∈ names.filter (fun n => !containsKey cache0 n) :=
    List.mem_filter.mpr ⟨h1, by simp [h2]⟩
  have hfail : n ∈ (runRounds fetch max_retries 1
      (names.filter (fun n => !containsKey cache0 n)) cache0).failed :=
    runRounds_mem_failed fetch n max_retries 1 _ cache0 hto
      (fun j hj1 hj2 => h3 j hj1 (by omega))
  have hcache : lookupKey
      ((runRounds fetch max_retries 1
          (names.filter (fun n => !containsKey cache0 n)) cache0).failed.foldl
        (fun c n => setKey c n [])
        (runRounds fetch max_retries 1
          (names.filter (fun n => !containsKey cache0 n)) cache0).cache) n
      = some [] :=
    lookupKey_foldl_setKey_mem n _ _ hfail
  refine ⟨hcache, ?_⟩
  have hres := lookupKey_map_pairs
    (fun m => (lookupKey
      ((runRounds fetch max_retries 1
          (names.filter (fun n => !containsKey cache0 n)) cache0).failed.foldl
        (fun c n => setKey c n [])
        (runRounds fetch max_retries 1
          (names.filter (fun n => !containsKey cache0 n)) cache0).cache) m).getD [])
    n names h1
  simp only [hcache, Option.getD_some] at hres
  exact hres

/-- C3 witness: the spec example, a tag source that always fails for
"Ghost" across 3 retries, yields a persisted empty-list cache entry and
an empty result entry. -/
theorem genre_giveup_cached_witness :
    lookupKey (fetch_artist_genres (fun _ _ => FetchOutcome.err)
        ["Ghost"] [] 3).cache "Ghost" = some []
      ∧ lookupKey (fetch_artist_genres (fun _ _ => FetchOutcome.err)
          ["Ghost"] [] 3).result "Ghost" = some [] :=
  genre_giveup_cached (fun _ _ => FetchOutcome.err) ["Ghost"] [] 3 "Ghost"
    (by simp) (by decide) (fun _ _ _ => rfl)

/-- C4: the result mapping of the resolver has exactly the requested
names as its key sequence, and every requested name is mapped to its
final cache entry, defaulting to the empty list when the cache has no
entry for it. -/
theorem genre_result_complete (fetch : Nat → String → FetchOutcome)
    (names : List String) (cache0 : Cache) (max_retries : Nat) :
    (fetch_artist_genres fetch names cache0 max_retries).result.map Prod.fst
        = names
      ∧ ∀ n ∈ names,
        lookupKey (fetch_artist_genres fetch names cache0 max_retries).result n
          = some ((lookupKey
              (fetch_artist_genres fetch names cache0 max_retries).cache n).getD []) := by
  constructor
  · have hfst : ∀ (g : String → List String) (ns : List String),
        (ns.map fun n => (n, g n)).map Prod.fst = ns := by
      intro g ns
      induction ns with
      | nil => rfl
      | cons a as ih => simp [ih]
    exact hfst _ names
  · intro n hn
    exact lookupKey_map_pairs _ n names hn

/-- C4 witness: a single requested name whose every lookup fails still
appears in the result, mapped to its (empty) cache entry. -/
theorem genre_result_complete_witness :
    ((fetch_artist_genres (fun _ _ => FetchOutcome.err) ["A"] [] 1).result.map
        Prod.fst = ["A"])
      ∧ lookupKey (fetch_artist_genres (fun _ _ => FetchOutcome.err)
          ["A"] [] 1).result "A"
        = some ((lookupKey (fetch_artist_genres (fun _ _ => FetchOutcome.err)
            ["A"] [] 1).cache "A").getD []) :=
  ⟨(genre_result_complete (fun _ _ => FetchOutcome.err) ["A"] [] 1).1,
    (genre_result_complete (fun _ _ => FetchOutcome.err) ["A"] [] 1).2 "A"
      (by simp)⟩

/-- C5: every lookup the resolver issues is for a name that is not a key
of the initially loaded cache, regardless of that key's cached value. -/
theorem genre_no_cached_lookup (fetch : Nat → String → FetchOutcome)
    (names : List String) (cache0 : Cache) (max_retries : Nat)
    (p : Nat × String)
    (hp : p ∈ (fetch_artist_genres fetch names cache0 max_retries).lookups) :
    containsKey cache0 p.2 = false := by
  have hp' : p ∈ (runRounds fetch max_retries 1
      (names.filter (fun n => !containsKey cache0 n)) cache0).lookups := hp
  have hmem := runRounds_lookups_name fetch p max_retries 1 _ cache0 hp'
  have := (List.mem_filter.mp hmem).2
  simpa using this

/-- C5 witness: with "A" cached (even with an empty value-like list) and
"B" requested, the one issued lookup targets "B", which is not a cache
key. -/
theorem genre_no_cached_lookup_witness :
    ((1, "B") ∈ (fetch_artist_genres (fun _ _ => FetchOutcome.err)
        ["B"] [("A", [])] 1).lookups)
      ∧ containsKey [("A", ([] : List String))] "B" = false :=
  ⟨by decide,
    genre_no_cached_lookup (fun _ _ => FetchOutcome.err) ["B"] [("A", [])] 1
      (1, "B") (by decide)⟩

/-- C9: every key-value pair of the initially loaded cache is still
present unchanged in the cache the resolver saves and returns, and the
resolver performs exactly one save per invocation. -/
theorem genre_cache_preserved (fetch : Nat → String → FetchOutcome)
    (names : List String) (cache0 : Cache) (max_retries : Nat)
    (k : String) (v : List String) (h : lookupKey cache0 k = some v) :
    lookupKey (fetch_artist_genres fetch names cache0 max_retries).cache k
        = some v
      ∧ (fetch_artist_genres fetch names cache0 max_retries).saves.length = 1 := by
  have hk : containsKey cache0 k = true := by simp [containsKey, h]
  have hne : ∀ m ∈ names.filter (fun n => !containsKey cache0 n), m ≠ k := by
    intro m hm hmk
    subst hmk
    have hc := (List.mem_filter.mp hm).2
    simp [hk] at hc
  have hsub : ∀ m ∈ (runRounds fetch max_retries 1
      (names.filter (fun n => !containsKey cache0 n)) cache0).failed, m ≠ k :=
    fun m hm => hne m (runRounds_failed_sub fetch m max_retries 1 _ cache0 hm)
  have h1 : lookupKey (runRounds fetch max_retries 1
      (names.filter (fun n => !containsKey cache0 n)) cache0).cache k
        = lookupKey cache0 k :=
    runRounds_cache_preserve fetch k max_retries 1 _ cache0 hne
  have h2 := lookupKey_foldl_setKey_ne k
    (runRounds fetch max_retries 1
      (names.filter (fun n => !containsKey cache0 n)) cache0).failed
    (runRounds fetch max_retries 1
      (names.filter (fun n => !containsKey cache0 n)) cache0).cache hsub
  exact ⟨h2.trans (h1.trans h), rfl⟩

/-- C9 witness: a pre-existing cache entry for "A" survives a resolver
run that fetches "B", and exactly one save is performed. -/
theorem genre_cache_preserved_witness :
    lookupKey (fetch_artist_genres (fun _ _ => FetchOutcome.ok [])
        ["B"] [("A", ["rock"])] 3).cache "A" = some ["rock"]
      ∧ (fetch_artist_genres (fun _ _ => FetchOutcome.ok [])
          ["B"] [("A", ["rock"])] 3).saves.length = 1 :=
  genre_cache_preserved (fun _ _ => FetchOutcome.ok []) ["B"] [("A", ["rock"])]
    3 "A" ["rock"] (by decide)

/-- C6: the genre cache round-trips: saving any mapping and loading
returns exactly that mapping, and loading when no persisted state exists
returns the empty mapping without failing. (The backing file format is
abstracted as a key-value document, as the spec scopes the concrete
serialization out.) -/
theorem genre_cache_roundtrip :
    (∀ M : Cache, load_genre_cache (save_genre_cache M) = M)
      ∧ load_genre_cache none = [] :=
  ⟨fun _ => rfl, rfl⟩

/-! ### Stable descending sort -/

theorem mem_insertDesc {α : Type} (key : α → Int) (x a : α) :
    ∀ l : List α, a ∈ insertDesc key x l ↔ a = x ∨ a ∈ l := by
  intro l
  induction l with
  | nil => simp [insertDesc]
  | cons y ys ih =>
    by_cases h : key y ≤ key x
    · simp [insertDesc, h]
    · simp [insertDesc, h, ih]
      tauto

theorem insertDesc_perm {α : Type} (key : α → Int) (x : α) :
    ∀ l : List α, (insertDesc key x l).Perm (x :: l) := by
  intro l
  induction l with
  | nil => simp [insertDesc]
  | cons y ys ih =>
    by_cases h : key y ≤ key x
    · simp [insertDesc, h]
    · simp only [insertDesc, h, if_false]
      exact (ih.cons y).trans (List.Perm.swap x y ys)

theorem sortDesc_perm {α : Type} (key : α → Int) :
    ∀ l : List α, (sortDesc key l).Perm l := by
  intro l
  induction l with
  | nil => simp [sortDesc]
  | cons x xs ih =>
    exact (insertDesc_perm key x (sortDesc key xs)).trans (ih.cons x)

theorem insertDesc_pairwise {α : Type} (key : α → Int) (x : α) :
    ∀ l : List α, List.Pairwise (fun a b => key b ≤ key a) l →
      List.Pairwise (fun a b => key b ≤ key a) (insertDesc key x l) := by
  intro l
  induction l with
  | nil => intro _; simp [insertDesc]
  | cons y ys ih =>
    intro h
    rcases List.pairwise_cons.mp h with ⟨hy, hys⟩
    by_cases hc : key y ≤ key x
    · simp only [insertDesc, hc, if_true]
      refine List.pairwise_cons.mpr ⟨?_, h⟩
      intro b hb
      rcases List.mem_cons.mp hb with hb | hb
      · exact hb ▸ hc
      · exact le_trans (hy b hb) hc
    · simp only [insertDesc, hc, if_false]
      refine List.pairwise_cons.mpr ⟨?_, ih hys⟩
      intro b hb
      rcases (mem_insertDesc key x b ys).mp hb with hb | hb
      · exact hb ▸ le_of_not_le hc
      · exact hy b hb

theorem sortDesc_pairwise {α : Type} (key : α → Int) :
    ∀ l : List α,
      List.Pairwise (fun a b => key b ≤ key a) (sortDesc key l) := by
  intro l
  induction l with
  | nil => simp [sortDesc]
  | cons x xs ih => exact insertDesc_pairwise key x (sortDesc key xs) ih

theorem filter_insertDesc {α : Type} (key : α → Int) (c : Int) (x : α) :
    ∀ l : List α,
      (insertDesc key x l).filter (fun a => key a == c)
        = if key x == c then x :: l.filter (fun a => key a == c)
          else l.filter (fun a => key a == c) := by
  intro l
  induction l with
  | nil => simp [insertDesc, List.filter_cons]
  | cons y ys ih =>
    by_cases hc : key y ≤ key x
    · simp [insertDesc, hc, List.filter_cons]
    · simp only [insertDesc, hc, if_false, List.filter_cons, ih]
      by_cases hx : key x == c
      · have hyc : (key y == c) = false := by
          have h1 : key x < key y := lt_of_not_le hc
          have h2 : key x = c := by simpa using hx
          rw [beq_eq_false_iff_ne]
          omega
        simp [hx, hyc, List.filter_cons]
      · simp [hx, List.filter_cons]

theorem filter_sortDesc {α : Type} (key : α → Int) (c : Int) :
    ∀ l : List α,
      (sortDesc key l).filter (fun a => key a == c)
        = l.filter (fun a => key a == c) := by
  intro l
  induction l with
  | nil => rfl
  | cons x xs ih =>
    simp only [sortDesc, filter_insertDesc, ih, List.filter_cons]

theorem rankFrom_map_fst {α : Type} :
    ∀ (l : List α) (i : Nat),
      (rankFrom i l).map Prod.fst = List.range' i l.length := by
  intro l
  induction l with
  | nil => intro i; rfl
  | cons x xs ih =>
    intro i
    simp [rankFrom, List.range'_succ, ih]

theorem rankFrom_map_snd {α : Type} :
    ∀ (l : List α) (i : Nat), (rankFrom i l).map Prod.snd = l := by
  intro l
  induction l with
  | nil => intro i; rfl
  | cons x xs ih =>
    intro i
    simp [rankFrom, ih]

/-- C7: the entry stored on a successful lookup is the names of the
first five tags of a descending stable sort by relevance count (ties
keep the source ordering), so it has length at most 5; the sorted list
is a permutation of the fetched tags, is pairwise descending in the
relevance key, and preserves the source order within every relevance
class. -/
theorem top5Tags_spec (tags : List MBTag) :
    (top5Tags tags).length ≤ 5
      ∧ (sortDesc tagKey tags).Perm tags
      ∧ List.Pairwise (fun a b => tagKey b ≤ tagKey a) (sortDesc tagKey tags)
      ∧ (∀ c : Int, (sortDesc tagKey tags).filter (fun t => tagKey t == c)
          = tags.filter (fun t => tagKey t == c))
      ∧ top5Tags tags = ((sortDesc tagKey tags).take 5).map MBTag.name := by
  refine ⟨?_, sortDesc_perm tagKey tags, sortDesc_pairwise tagKey tags,
    fun c => filter_sortDesc tagKey c tags, rfl⟩
  simp only [top5Tags, List.length_map, List.length_take]
  omega

/-- C8: ranking a stats mapping by a numeric key assigns the 1-based
consecutive ranks 1..n, in an order that is a descending stable sort by
the key: the ranked entries are exactly the sorted entries, the sort is
a permutation of the input, pairwise descending in the key, and
preserves the input order within every key class. -/
theorem rankRows_spec {α : Type} (key : α → Int) (items : List α) :
    (rankRows key items).map Prod.fst = List.range' 1 items.length
      ∧ (rankRows key items).map Prod.snd = sortDesc key items
      ∧ List.Pairwise (fun a b => key b ≤ key a) (sortDesc key items)
      ∧ (sortDesc key items).Perm items
      ∧ ∀ c : Int, (sortDesc key items).filter (fun a => key a == c)
          = items.filter (fun a => key a == c) := by
  refine ⟨?_, rankFrom_map_snd _ 1, sortDesc_pairwise key items,
    sortDesc_perm key items, fun c => filter_sortDesc key c items⟩
  rw [rankRows, rankFrom_map_fst, (sortDesc_perm key items).length_eq]

/-! ### DnB playlist selection -/

theorem dnb_fold_not_excluded :
    ∀ (gc : Cache) (s : List String),
      (∀ x ∈ s, DNB_EXCLUDE.contains x = false) →
      ∀ x ∈ gc.foldl
          (fun s p =>
            if p.2.any hasDnbTag && !(DNB_EXCLUDE.contains p.1) then addSet s p.1
            else s)
          s,
        DNB_EXCLUDE.contains x = false := by
  intro gc
  induction gc with
  | nil => exact fun s hs x hx => hs x hx
  | cons p rest ih =>
    intro s hs x hx
    simp only [List.foldl_cons] at hx
    by_cases hc : (p.2.any hasDnbTag && !(DNB_EXCLUDE.contains p.1)) = true
    · simp only [hc, if_true] at hx
      refine ih (addSet s p.1) ?_ x hx
      intro y hy
      by_cases hsc : s.contains p.1 = true
      · simp only [addSet, hsc, if_true] at hy
        exact hs y hy
      · rw [Bool.not_eq_true] at hsc
        simp only [addSet, hsc, Bool.false_eq_true, if_false] at hy
        rcases List.mem_append.mp hy with hy | hy
        · exact hs y hy
        · have hyp : y = p.1 := by simpa using hy
          subst hyp
          have hc2 := (Bool.and_eq_true _ _).mp hc
          simpa using hc2.2
    · rw [Bool.not_eq_true] at hc
      simp only [hc, Bool.false_eq_true, if_false] at hx
      exact ih s hs x hx

/-- C10: no track whose aggregated artist name is on the hard-coded
exclusion list is ever selected into the top-100 drum-and-bass list,
whatever the genre cache contains for that artist. -/
theorem dnb_exclusion (genre_cache : Cache) (entries : List Event)
    (tm : List (String × MPTrackStats)) (p : String × MPTrackStats)
    (h1 : mp_aggregate_tracks entries 30000 = Except.ok tm)
    (h2 : p ∈ top_100_dnb genre_cache tm) :
    DNB_EXCLUDE.contains p.2.artist_name = false := by
  have h2' : p ∈ (sortDesc (fun q => (q.2.play_count : Int))
      (tm.filter (fun q =>
        (dnb_artists genre_cache).contains q.2.artist_name))).take 100 := h2
  have h3 : p ∈ sortDesc (fun q => (q.2.play_count : Int))
      (tm.filter (fun q =>
        (dnb_artists genre_cache).contains q.2.artist_name)) :=
    List.take_subset _ _ h2'
  have h4 : p ∈ tm.filter (fun q =>
      (dnb_artists genre_cache).contains q.2.artist_name) :=
    ((sortDesc_perm _ _).mem_iff).mp h3
  have h5 := (List.mem_filter.mp h4).2
  have h6 : p.2.artist_name ∈ dnb_artists genre_cache := by
    simpa using h5
  exact dnb_fold_not_excluded genre_cache [] (by simp) p.2.artist_name h6

/-- C10 witness: a non-excluded artist tagged "drum and bass" makes the
top-100 DnB list with its track, and that track's artist is indeed not
on the exclusion list. -/
theorem dnb_exclusion_witness :
    (mp_aggregate_tracks [⟨some "u", some "T", some "X", none, some 40000⟩]
        30000 = Except.ok [("u", ⟨"T", "X", 1, 40000⟩)])
      ∧ (("u", (⟨"T", "X", 1, 40000⟩ : MPTrackStats))
          ∈ top_100_dnb [("X", ["drum and bass"])] [("u", ⟨"T", "X", 1, 40000⟩)])
      ∧ DNB_EXCLUDE.contains
          (("u", (⟨"T", "X", 1, 40000⟩ : MPTrackStats)).2.artist_name) = false :=
  ⟨rfl, by decide,
    dnb_exclusion [("X", ["drum and bass"])]
      [⟨some "u", some "T", some "X", none, some 40000⟩]
      [("u", ⟨"T", "X", 1, 40000⟩)] ("u", ⟨"T", "X", 1, 40000⟩) rfl (by decide)⟩
